import Mathlib

/-! # Corridor geometry module

A shallow embedding of `modules/geometry.js` (point transformations, the two
trajectory laws, the `Trajectory` dispatcher and the `Square` outline) together
with the properties claimed about it.

Numbers.  The definitions are written once, over any ordered field `R` with a
floor function, and take the functions of the JavaScript `Math` object they use
(`cos`, `sin`, `atan2`, `PI`) as a record `JSMath R`; they are computable and can
be run over `ℚ`.  The properties are stated for `R = ℝ` with the record
`Corridor.Math` of the real functions: JavaScript numbers are idealised as real
numbers, so rounding, infinities and signed zeros are outside the model.  The one
non-real value the code can produce from real inputs, the `NaN` of `x % 0`, is
kept: `js_rem` returns `none` for it.
-/

namespace Corridor

/-! ## Numbers and the `Math` object -/

/-- The members of the JavaScript `Math` object that the module calls.
`atan2` takes its arguments in the JavaScript order, `atan2 y x`. -/
structure JSMath (R : Type) where
  cos : R → R
  sin : R → R
  atan2 : R → R → R
  PI : R

/-- A point (or a vector) is the two-element array `[X, Y]`. -/
abbrev Point (R : Type) := R × R

section Source

variable {R : Type} [LinearOrderedField R] [FloorRing R]

/-- Rounding towards zero, the integer quotient used by the JavaScript `%`. -/
def js_trunc (x : R) : ℤ :=
  if 0 ≤ x then Int.floor x else Int.ceil x

/-- The JavaScript remainder `a % b` on numbers: the exact value
`a - b * trunc (a / b)`, which carries the sign of the dividend `a`; a zero
divisor gives `NaN`, rendered as `none`. -/
def js_rem (a b : R) : Option R :=
  if b = 0 then none else some (a - b * ((js_trunc (a / b) : ℤ) : R))

/-! ## Transformations -/

/-- The function `point_rotation(input, angle)`: rotation around the centre. -/
def point_rotation (M : JSMath R) (input : Point R) (angle : R) : Point R :=
  (input.1 * M.cos angle - input.2 * M.sin angle,
   input.2 * M.cos angle + input.1 * M.sin angle)

/-- The function `point_translation(input, vector)`. -/
def point_translation (input : Point R) (vector : Point R) : Point R :=
  (input.1 + vector.1, input.2 + vector.2)

/-! ## Trajectories -/

/-- The function `segment_through_center(start_point, elapsed_time)`.
When `4 * start_point_proj[0]` is zero the remainder `time` is `NaN`; the
comparison is then false, `new_point_proj_x` is `NaN` and the returned array is
`[NaN, NaN]`, which is the result `none` here. -/
def segment_through_center (M : JSMath R) (start_point : Point R) (elapsed_time : R) :
    Option (Point R) :=
  -- rotate reference frame to have start_point on X-axis
  let angle := M.atan2 start_point.2 start_point.1
  let start_point_proj := point_rotation M start_point (-angle)
  -- time to travel from start_point to center is set to proj_point X value.
  match js_rem elapsed_time (4 * start_point_proj.1) with
  | none => none
  | some time =>
    let new_point_proj_x :=
      if time < 2 * start_point_proj.1 then
        -- start_point - end_point portion
        start_point_proj.1 - time
      else
        -- end_point - start_point portion
        -3 * start_point_proj.1 + time
    -- return new point described in initial reference frame
    some (point_rotation M (new_point_proj_x, 0) angle)

/-- The function `circle_equation(start_point, t)`. -/
def circle_equation (M : JSMath R) (start_point : Point R) (t : R) : Point R :=
  -- rotate reference frame to have start_point on X-axis
  let angle := M.atan2 start_point.2 start_point.1
  let projected_point := point_rotation M start_point (-angle)
  -- compute point on circle in rotated reference frame
  let radius := projected_point.1
  let new_projected_point : Point R := (radius * M.cos t, radius * M.sin t)
  -- return new point described in initial reference frame
  point_rotation M new_projected_point angle

/-- The fields stored by the class `Trajectory`. -/
structure Trajectory (R : Type) where
  type : String
  start_point : Point R
  start_time : R

/-- The ways in which building a trajectory could be refused.  The source has
no such refusal; the names are those of the specification. -/
inductive ConstructionError where
  | DegenerateTrajectory
  | UnknownTrajectoryKind
  deriving DecidableEq, Repr

/-- The constructor of `Trajectory`: three assignments, no check and no `throw`,
so it always yields the object. -/
def Trajectory.constructor (type : String) (start_point : Point R) (start_time : R) :
    Except ConstructionError (Trajectory R) :=
  Except.ok { type := type, start_point := start_point, start_time := start_time }

/-- What a call of `compute_new_point` evaluates to. -/
inductive Value (R : Type) where
  /-- No `return` was reached: the call evaluates to `undefined`. -/
  | undefined : Value R
  /-- The array `[NaN, NaN]`. -/
  | nan_point : Value R
  /-- The array `[X, Y]` of two numbers. -/
  | point : Point R → Value R

/-- The method `Trajectory.compute_new_point(elapsed_time)`. -/
def Trajectory.compute_new_point (M : JSMath R) (self : Trajectory R) (elapsed_time : R) :
    Value R :=
  if self.type = "circle" then
    Value.point
      (circle_equation M self.start_point ((elapsed_time - self.start_time) * M.PI / 180))
  else if self.type = "segment" then
    match segment_through_center M self.start_point (elapsed_time - self.start_time) with
    | some new_point => Value.point new_point
    | none => Value.nan_point
  else
    Value.undefined

/-! ## Shapes -/

/-- The fields stored by the class `Square`. -/
structure Square (R : Type) where
  side : R
  angle : R
  center : Point R
  size_max : R

/-- The array `corners` of `Square.display` once its `for` loop has run: the
literal of four corners, then for each index `i` in turn `corners[i]` is rotated
and the rotated `corners[i]` is translated. -/
def Square.corners (M : JSMath R) (self : Square R) : List (Point R) :=
  let corners : List (Point R) := [
    ((-self.side) / 2, (-self.side) / 2),
    ((-self.side) / 2, self.side / 2),
    (self.side / 2, self.side / 2),
    (self.side / 2, (-self.side) / 2)]
  (List.range corners.length).foldl
    (fun cs i =>
      let cs1 := cs.set i (point_rotation M (cs.getD i (0, 0)) self.angle)
      cs1.set i (point_translation (cs1.getD i (0, 0)) self.center))
    corners

/-- The arguments `(x1, y1, x2, y2)` of one call of the drawing primitive `line`. -/
abbrev LineCall (R : Type) := R × R × R × R

/-- The method `Square.display()`, as the sequence of `line` calls it issues. -/
def Square.display (M : JSMath R) (self : Square R) : List (LineCall R) :=
  let corners := self.corners M
  let c (i : Nat) : Point R := corners.getD i (0, 0)
  [((c 0).1, (c 0).2, (c 1).1, (c 1).2),
   ((c 1).1, (c 1).2, (c 2).1, (c 2).2),
   ((c 2).1, (c 2).2, (c 3).1, (c 3).2),
   ((c 3).1, (c 3).2, (c 0).1, (c 0).2)]

/-- The first end point `(x1, y1)` of a `line` call. -/
def line_from (l : LineCall R) : Point R := (l.1, l.2.1)

/-- The second end point `(x2, y2)` of a `line` call. -/
def line_to (l : LineCall R) : Point R := (l.2.2.1, l.2.2.2)

/-- Every line of the sequence starts where the line before it ended. -/
def chained : List (LineCall R) → Prop
  | a :: b :: rest => line_to a = line_from b ∧ chained (b :: rest)
  | _ => True

/-- A closed outline: the lines are chained and the last one ends where the
first one starts. -/
def closed_outline (ls : List (LineCall R)) : Prop :=
  chained ls ∧
    ∀ a b : LineCall R, ls.head? = some a → ls.getLast? = some b → line_to b = line_from a

end Source

/-! ## The real `Math` object -/

/-- The `Math` object over the reals: `Math.cos`, `Math.sin`, `Math.atan2 y x`
(the argument of `x + y i`, in `(-π, π]`, with `atan2 0 0 = 0`) and `Math.PI`. -/
noncomputable def Math : JSMath ℝ where
  cos := Real.cos
  sin := Real.sin
  atan2 := fun y x => Complex.arg (Complex.mk x y)
  PI := Real.pi


/-! ## Auxiliary facts over the reals -/

section RealFacts

theorem math_cos (a : ℝ) : Math.cos a = Real.cos a := rfl

theorem math_sin (a : ℝ) : Math.sin a = Real.sin a := rfl

theorem math_PI : Math.PI = Real.pi := rfl

theorem math_atan2 (y x : ℝ) : Math.atan2 y x = Complex.arg (Complex.mk x y) := rfl

theorem abs_mk_eq_sqrt (x y : ℝ) :
    Complex.abs (Complex.mk x y) = Real.sqrt (x ^ 2 + y ^ 2) := by
  rw [Complex.abs_apply, Complex.normSq_mk]
  congr 1
  ring

/-- `|p| * cos (atan2 y x) = x`, also at the origin. -/
theorem sqrt_mul_cos_atan2 (x y : ℝ) :
    Real.sqrt (x ^ 2 + y ^ 2) * Real.cos (Math.atan2 y x) = x := by
  rw [math_atan2, ← abs_mk_eq_sqrt]
  by_cases h : Complex.mk x y = 0
  · have hx : x = 0 := by simpa using congrArg Complex.re h
    rw [h]
    simp [hx]
  · rw [Complex.cos_arg h]
    have h0 : Complex.abs (Complex.mk x y) ≠ 0 := by simpa using h
    field_simp

/-- `|p| * sin (atan2 y x) = y`, also at the origin. -/
theorem sqrt_mul_sin_atan2 (x y : ℝ) :
    Real.sqrt (x ^ 2 + y ^ 2) * Real.sin (Math.atan2 y x) = y := by
  rw [math_atan2, ← abs_mk_eq_sqrt, Complex.sin_arg]
  by_cases h : Complex.mk x y = 0
  · have hy : y = 0 := by simpa using congrArg Complex.im h
    rw [h]
    simp [hy]
  · have h0 : Complex.abs (Complex.mk x y) ≠ 0 := by simpa using h
    field_simp

theorem cos_sq_add_sin_sq_mul (r a : ℝ) :
    r * Real.cos a * Real.cos a + r * Real.sin a * Real.sin a = r := by
  have h := Real.cos_sq_add_sin_sq a
  calc r * Real.cos a * Real.cos a + r * Real.sin a * Real.sin a
      = r * (Real.cos a ^ 2 + Real.sin a ^ 2) := by ring
    _ = r := by rw [h, mul_one]

/-- In the rotated frame the start point has abscissa `|p|`. -/
theorem proj_fst (p : Point ℝ) :
    (point_rotation Math p (-(Math.atan2 p.2 p.1))).1 = Real.sqrt (p.1 ^ 2 + p.2 ^ 2) := by
  have hc := sqrt_mul_cos_atan2 p.1 p.2
  have hs := sqrt_mul_sin_atan2 p.1 p.2
  simp only [point_rotation, math_cos, math_sin, Real.cos_neg, Real.sin_neg]
  set r := Real.sqrt (p.1 ^ 2 + p.2 ^ 2)
  set θ := Math.atan2 p.2 p.1
  have h := cos_sq_add_sin_sq_mul r θ
  calc p.1 * Real.cos θ - p.2 * -Real.sin θ
      = (r * Real.cos θ) * Real.cos θ + (r * Real.sin θ) * Real.sin θ := by
        rw [hc, hs]; ring
    _ = r := h

/-- In the rotated frame the start point has ordinate `0`. -/
theorem proj_snd (p : Point ℝ) :
    (point_rotation Math p (-(Math.atan2 p.2 p.1))).2 = 0 := by
  have hc := sqrt_mul_cos_atan2 p.1 p.2
  have hs := sqrt_mul_sin_atan2 p.1 p.2
  simp only [point_rotation, math_cos, math_sin, Real.cos_neg, Real.sin_neg]
  set r := Real.sqrt (p.1 ^ 2 + p.2 ^ 2)
  set θ := Math.atan2 p.2 p.1
  calc p.2 * Real.cos θ + p.1 * -Real.sin θ
      = (r * Real.sin θ) * Real.cos θ - (r * Real.cos θ) * Real.sin θ := by
        rw [hc, hs]; ring
    _ = 0 := by ring

/-- Rotating `(|p|, 0)` by `atan2 y x` gives `p` back. -/
theorem rotation_back (p : Point ℝ) :
    point_rotation Math (Real.sqrt (p.1 ^ 2 + p.2 ^ 2), 0) (Math.atan2 p.2 p.1) = p := by
  have hc := sqrt_mul_cos_atan2 p.1 p.2
  have hs := sqrt_mul_sin_atan2 p.1 p.2
  simp only [point_rotation, math_cos, math_sin]
  ext
  · simp [hc]
  · simp [hs]

/-- Rotating `(c * |p|, 0)` by `atan2 y x` gives `c * p`. -/
theorem rotation_back_scaled (p : Point ℝ) (c : ℝ) :
    point_rotation Math (c * Real.sqrt (p.1 ^ 2 + p.2 ^ 2), 0) (Math.atan2 p.2 p.1)
      = (c * p.1, c * p.2) := by
  have hc := sqrt_mul_cos_atan2 p.1 p.2
  have hs := sqrt_mul_sin_atan2 p.1 p.2
  simp only [point_rotation, math_cos, math_sin]
  ext
  · simp only [zero_mul, sub_zero]; rw [mul_assoc, hc]
  · simp only [zero_mul, zero_add]; rw [mul_assoc, hs]

theorem sqrt_pos_of_ne (p : Point ℝ) (hp : p ≠ (0, 0)) :
    0 < Real.sqrt (p.1 ^ 2 + p.2 ^ 2) := by
  apply Real.sqrt_pos.mpr
  rcases p with ⟨x, y⟩
  have hxy : x ≠ 0 ∨ y ≠ 0 := by
    by_contra hcon
    push_neg at hcon
    exact hp (by rw [hcon.1, hcon.2])
  rcases hxy with hx | hy
  · have := sq_pos_of_ne_zero hx
    positivity
  · have := sq_pos_of_ne_zero hy
    positivity

/-- A rotation keeps the sum of the squares of the coordinates. -/
theorem rotation_norm_sq (q : Point ℝ) (a : ℝ) :
    (point_rotation Math q a).1 ^ 2 + (point_rotation Math q a).2 ^ 2 = q.1 ^ 2 + q.2 ^ 2 := by
  have h := Real.cos_sq_add_sin_sq a
  simp only [point_rotation, math_cos, math_sin]
  calc (q.1 * Real.cos a - q.2 * Real.sin a) ^ 2 + (q.2 * Real.cos a + q.1 * Real.sin a) ^ 2
      = (q.1 ^ 2 + q.2 ^ 2) * (Real.cos a ^ 2 + Real.sin a ^ 2) := by ring
    _ = q.1 ^ 2 + q.2 ^ 2 := by rw [h, mul_one]

/-- The circular law is the rotation of the start point by `t`. -/
theorem circle_equation_eq (p : Point ℝ) (t : ℝ) :
    circle_equation Math p t
      = point_rotation Math
          (Real.sqrt (p.1 ^ 2 + p.2 ^ 2) * Real.cos t, Real.sqrt (p.1 ^ 2 + p.2 ^ 2) * Real.sin t)
          (Math.atan2 p.2 p.1) := by
  simp only [circle_equation, proj_fst, math_cos, math_sin]

theorem compute_circle (p : Point ℝ) (s e : ℝ) :
    Trajectory.compute_new_point Math { type := "circle", start_point := p, start_time := s } e
      = Value.point (circle_equation Math p ((e - s) * Real.pi / 180)) := by
  simp [Trajectory.compute_new_point, math_PI]

/-- The loop of `Square.display` rotates and then translates each of the four
corners of the literal, keeping their order. -/
theorem corners_eq (sq : Square ℝ) :
    Square.corners Math sq =
      [point_translation (point_rotation Math ((-sq.side) / 2, (-sq.side) / 2) sq.angle) sq.center,
       point_translation (point_rotation Math ((-sq.side) / 2, sq.side / 2) sq.angle) sq.center,
       point_translation (point_rotation Math (sq.side / 2, sq.side / 2) sq.angle) sq.center,
       point_translation (point_rotation Math (sq.side / 2, (-sq.side) / 2) sq.angle) sq.center] :=
  rfl

/-! ### The remainder -/

theorem js_trunc_eq_zero_of_nonneg (x : ℝ) (h0 : 0 ≤ x) (h1 : x < 1) : js_trunc x = 0 := by
  unfold js_trunc
  rw [if_pos h0, Int.floor_eq_iff]
  constructor
  · simpa using h0
  · simpa using h1

theorem js_trunc_eq_zero_of_neg (x : ℝ) (h0 : x < 0) (h1 : -1 < x) : js_trunc x = 0 := by
  unfold js_trunc
  rw [if_neg (not_le.mpr h0), Int.ceil_eq_iff]
  constructor
  · simpa using h1
  · simpa using h0.le

theorem js_trunc_add_one (x : ℝ) (h0 : 0 ≤ x) : js_trunc (x + 1) = js_trunc x + 1 := by
  have h1 : (0 : ℝ) ≤ x + 1 := by linarith
  unfold js_trunc
  rw [if_pos h0, if_pos h1, Int.floor_add_one]

/-- A dividend in `[0, b)` is its own remainder. -/
theorem js_rem_of_nonneg_lt (a b : ℝ) (h0 : 0 ≤ a) (hlt : a < b) : js_rem a b = some a := by
  have hb : 0 < b := lt_of_le_of_lt h0 hlt
  have ht : js_trunc (a / b) = 0 :=
    js_trunc_eq_zero_of_nonneg _ (div_nonneg h0 hb.le) ((div_lt_one hb).mpr hlt)
  unfold js_rem
  rw [if_neg hb.ne.symm, ht]
  simp

/-- A dividend in `(-b, 0)` is its own remainder: the sign of the dividend is kept. -/
theorem js_rem_of_neg_gt (a b : ℝ) (h0 : a < 0) (hlt : -b < a) : js_rem a b = some a := by
  have hb : 0 < b := by linarith
  have h1 : -1 < a / b := by
    rw [lt_div_iff₀ hb]
    linarith
  have ht : js_trunc (a / b) = 0 := js_trunc_eq_zero_of_neg _ (div_neg_of_neg_of_pos h0 hb) h1
  unfold js_rem
  rw [if_neg hb.ne.symm, ht]
  simp

theorem js_rem_self (b : ℝ) (hb : 0 < b) : js_rem b b = some 0 := by
  have ht : js_trunc (b / b) = 1 := by
    rw [div_self hb.ne.symm]
    have h := js_trunc_add_one 0 le_rfl
    rw [zero_add] at h
    rw [h, js_trunc_eq_zero_of_nonneg 0 le_rfl one_pos]
    rfl
  unfold js_rem
  rw [if_neg hb.ne.symm, ht]
  simp

/-- For a non-negative dividend, adding the divisor does not change the remainder. -/
theorem js_rem_add_of_nonneg (a b : ℝ) (h0 : 0 ≤ a) (hb : 0 < b) :
    js_rem (a + b) b = js_rem a b := by
  have hq : (a + b) / b = a / b + 1 := by
    field_simp
  unfold js_rem
  rw [if_neg hb.ne.symm, if_neg hb.ne.symm, hq, js_trunc_add_one _ (div_nonneg h0 hb.le)]
  congr 1
  push_cast
  ring

/-! ### The segment law -/

/-- The segment law, once the remainder `time` is known. -/
theorem segment_of_rem (p : Point ℝ) (τ time : ℝ)
    (h : js_rem τ (4 * Real.sqrt (p.1 ^ 2 + p.2 ^ 2)) = some time) :
    segment_through_center Math p τ
      = some (point_rotation Math
          (if time < 2 * Real.sqrt (p.1 ^ 2 + p.2 ^ 2)
            then Real.sqrt (p.1 ^ 2 + p.2 ^ 2) - time
            else -3 * Real.sqrt (p.1 ^ 2 + p.2 ^ 2) + time, 0)
          (Math.atan2 p.2 p.1)) := by
  simp only [segment_through_center, proj_fst]
  rw [h]

theorem compute_segment (p : Point ℝ) (s e : ℝ) (q : Point ℝ)
    (h : segment_through_center Math p (e - s) = some q) :
    Trajectory.compute_new_point Math { type := "segment", start_point := p, start_time := s } e
      = Value.point q := by
  simp [Trajectory.compute_new_point, h]

/-- The value of a `segment` trajectory, once the remainder `time` is known. -/
theorem compute_segment_of_rem (p : Point ℝ) (s e time : ℝ)
    (h : js_rem (e - s) (4 * Real.sqrt (p.1 ^ 2 + p.2 ^ 2)) = some time) :
    Trajectory.compute_new_point Math { type := "segment", start_point := p, start_time := s } e
      = Value.point (point_rotation Math
          (if time < 2 * Real.sqrt (p.1 ^ 2 + p.2 ^ 2)
            then Real.sqrt (p.1 ^ 2 + p.2 ^ 2) - time
            else -3 * Real.sqrt (p.1 ^ 2 + p.2 ^ 2) + time, 0)
          (Math.atan2 p.2 p.1)) :=
  compute_segment p s e _ (segment_of_rem p (e - s) time h)

theorem rotation_zero (a : ℝ) : point_rotation Math (0, 0) a = (0, 0) := by
  simp [point_rotation]

theorem sqrt_five : Real.sqrt ((5 : ℝ) ^ 2 + 0 ^ 2) = 5 := by
  rw [show ((5 : ℝ) ^ 2 + 0 ^ 2) = 5 ^ 2 by norm_num]
  exact Real.sqrt_sq (by norm_num)

/-- On the axis through `(5, 0)` the rotation back to the initial frame is the identity. -/
theorem rotation_on_axis (x : ℝ) :
    point_rotation Math (x, 0) (Math.atan2 0 5) = (x, 0) := by
  have h := rotation_back_scaled ((5 : ℝ), (0 : ℝ)) (x / 5)
  simp only [sqrt_five] at h
  rw [show x / 5 * 5 = x by ring] at h
  rw [h]
  simp

/-- From the start time on, the segment law repeats after `4 * |p|`. -/
theorem segment_periodic_of_nonneg (p : Point ℝ) (hp : p ≠ (0, 0)) (τ : ℝ) (hτ : 0 ≤ τ) :
    segment_through_center Math p (τ + 4 * Real.sqrt (p.1 ^ 2 + p.2 ^ 2))
      = segment_through_center Math p τ := by
  have hd := sqrt_pos_of_ne p hp
  simp only [segment_through_center, proj_fst]
  rw [js_rem_add_of_nonneg τ _ hτ (by linarith)]

/-- The circular law rotates the start point by `t`: the detour through the
rotated frame cancels. -/
theorem circle_equation_rotation (p : Point ℝ) (t : ℝ) :
    circle_equation Math p t = point_rotation Math p t := by
  have hc := sqrt_mul_cos_atan2 p.1 p.2
  have hs := sqrt_mul_sin_atan2 p.1 p.2
  rw [circle_equation_eq]
  simp only [point_rotation, math_cos, math_sin]
  set r := Real.sqrt (p.1 ^ 2 + p.2 ^ 2)
  set θ := Math.atan2 p.2 p.1
  ext
  · calc r * Real.cos t * Real.cos θ - r * Real.sin t * Real.sin θ
        = (r * Real.cos θ) * Real.cos t - (r * Real.sin θ) * Real.sin t := by ring
      _ = p.1 * Real.cos t - p.2 * Real.sin t := by rw [hc, hs]
  · calc r * Real.sin t * Real.cos θ + r * Real.cos t * Real.sin θ
        = (r * Real.sin θ) * Real.cos t + (r * Real.cos θ) * Real.sin t := by ring
      _ = p.2 * Real.cos t + p.1 * Real.sin t := by rw [hc, hs]

theorem sqrt_three_four : Real.sqrt ((3 : ℝ) ^ 2 + 4 ^ 2) = 5 := by
  rw [show ((3 : ℝ) ^ 2 + 4 ^ 2) = 5 ^ 2 by norm_num]
  exact Real.sqrt_sq (by norm_num)

/-- The `line` calls of `Square.display`, in terms of the four corners. -/
theorem display_eq (sq : Square ℝ) (c0 c1 c2 c3 : Point ℝ)
    (h : Square.corners Math sq = [c0, c1, c2, c3]) :
    Square.display Math sq =
      [(c0.1, c0.2, c1.1, c1.2), (c1.1, c1.2, c2.1, c2.2),
       (c2.1, c2.2, c3.1, c3.2), (c3.1, c3.2, c0.1, c0.2)] := by
  simp only [Square.display, h]
  rfl

/-! ### More on the remainder and the segment law -/

theorem js_rem_zero_divisor (a : ℝ) : js_rem a 0 = none := by
  simp [js_rem]

theorem js_rem_of_ne (a b : ℝ) (hb : b ≠ 0) :
    js_rem a b = some (a - b * ((js_trunc (a / b) : ℤ) : ℝ)) := by
  simp [js_rem, hb]

/-- For a non-negative dividend and a positive divisor the remainder is the
mathematical one, `a - b * ⌊a / b⌋`. -/
theorem js_rem_of_nonneg (a b : ℝ) (ha : 0 ≤ a) (hb : 0 < b) :
    js_rem a b = some (a - b * ((Int.floor (a / b) : ℤ) : ℝ)) := by
  rw [js_rem_of_ne a b hb.ne.symm]
  unfold js_trunc
  rw [if_pos (div_nonneg ha hb.le)]

/-- The mathematical remainder lies in `[0, b)`. -/
theorem floor_rem_bounds (a b : ℝ) (hb : 0 < b) :
    0 ≤ a - b * ((Int.floor (a / b) : ℤ) : ℝ) ∧ a - b * ((Int.floor (a / b) : ℤ) : ℝ) < b := by
  have h1 : ((Int.floor (a / b) : ℤ) : ℝ) ≤ a / b := Int.floor_le _
  have h2 : a / b < ((Int.floor (a / b) : ℤ) : ℝ) + 1 := Int.lt_floor_add_one _
  have h3 : b * (a / b) = a := by field_simp
  constructor
  · have := mul_le_mul_of_nonneg_left h1 hb.le
    linarith
  · have := mul_lt_mul_of_pos_left h2 hb
    linarith

/-- A point of the X-axis, rotated. -/
theorem rotation_axis_point (x a : ℝ) :
    point_rotation Math (x, 0) a = (x * Real.cos a, x * Real.sin a) := by
  simp [point_rotation, math_cos, math_sin]

/-- A rotation commutes with scaling. -/
theorem rotation_smul (c : ℝ) (q : Point ℝ) (a : ℝ) :
    point_rotation Math (c * q.1, c * q.2) a
      = (c * (point_rotation Math q a).1, c * (point_rotation Math q a).2) := by
  simp only [point_rotation]
  ext
  · simp only; ring
  · simp only; ring

/-- The point of abscissa `x` of the rotated frame is `(x / |p|) * p`. -/
theorem rotation_back_of_abscissa (p : Point ℝ) (hp : p ≠ (0, 0)) (x : ℝ) :
    point_rotation Math (x, 0) (Math.atan2 p.2 p.1)
      = (x / Real.sqrt (p.1 ^ 2 + p.2 ^ 2) * p.1, x / Real.sqrt (p.1 ^ 2 + p.2 ^ 2) * p.2) := by
  have hd := sqrt_pos_of_ne p hp
  rw [← rotation_back_scaled, div_mul_cancel₀ x hd.ne.symm]

/-- The squared distance of two rotated points of the X-axis. -/
theorem dist_axis_points (x1 x2 a : ℝ) :
    Real.sqrt (((point_rotation Math (x1, 0) a).1 - (point_rotation Math (x2, 0) a).1) ^ 2
      + ((point_rotation Math (x1, 0) a).2 - (point_rotation Math (x2, 0) a).2) ^ 2)
      = |x1 - x2| := by
  have h := Real.cos_sq_add_sin_sq a
  rw [rotation_axis_point, rotation_axis_point, ← Real.sqrt_sq_eq_abs]
  congr 1
  simp only
  linear_combination (x1 - x2) ^ 2 * h

/-- Within the first period the remainder is the elapsed time itself. -/
theorem segment_of_nonneg_lt (p : Point ℝ) (τ : ℝ) (h0 : 0 ≤ τ)
    (h4 : τ < 4 * Real.sqrt (p.1 ^ 2 + p.2 ^ 2)) :
    segment_through_center Math p τ
      = some (point_rotation Math
          (if τ < 2 * Real.sqrt (p.1 ^ 2 + p.2 ^ 2)
            then Real.sqrt (p.1 ^ 2 + p.2 ^ 2) - τ
            else -3 * Real.sqrt (p.1 ^ 2 + p.2 ^ 2) + τ, 0)
          (Math.atan2 p.2 p.1)) :=
  segment_of_rem p τ τ (js_rem_of_nonneg_lt _ _ h0 h4)

/-- On the way out the abscissa is `d - τ`, also at the turning time `2d`. -/
theorem abscissa_first_leg (d τ : ℝ) (h : τ ≤ 2 * d) :
    (if τ < 2 * d then d - τ else -3 * d + τ) = d - τ := by
  split_ifs with h1
  · rfl
  · have : τ = 2 * d := le_antisymm h (not_lt.mp h1)
    rw [this]
    ring

/-- Whatever the remainder in `[0, 4d)`, the abscissa stays in `[-d, d]`. -/
theorem abscissa_sq_le (d r : ℝ) (h0 : 0 ≤ r) (h4 : r < 4 * d) :
    (if r < 2 * d then d - r else -3 * d + r) ^ 2 ≤ d ^ 2 := by
  split_ifs with h1
  · nlinarith
  · have h2 := not_lt.mp h1
    nlinarith

/-- From the start time on, the segment law stays within distance `|p|` of the
origin. -/
theorem segment_within_of_nonneg (p : Point ℝ) (hp : p ≠ (0, 0)) (τ : ℝ) (hτ : 0 ≤ τ) :
    ∃ q : Point ℝ, segment_through_center Math p τ = some q ∧
      q.1 ^ 2 + q.2 ^ 2 ≤ p.1 ^ 2 + p.2 ^ 2 := by
  have hd := sqrt_pos_of_ne p hp
  have h4 : 0 < 4 * Real.sqrt (p.1 ^ 2 + p.2 ^ 2) := by linarith
  have hb := floor_rem_bounds τ _ h4
  refine ⟨_, segment_of_rem p τ _ (js_rem_of_nonneg τ _ hτ h4), ?_⟩
  rw [rotation_norm_sq]
  have hx := abscissa_sq_le (Real.sqrt (p.1 ^ 2 + p.2 ^ 2)) _ hb.1 hb.2
  have hsq : Real.sqrt (p.1 ^ 2 + p.2 ^ 2) ^ 2 = p.1 ^ 2 + p.2 ^ 2 :=
    Real.sq_sqrt (by positivity)
  simp only [ne_eq, OfNat.ofNat_ne_zero, not_false_eq_true, zero_pow, add_zero]
  linarith

/-- The segment law when the remainder is `NaN`. -/
theorem segment_of_rem_none (p : Point ℝ) (τ : ℝ)
    (h : js_rem τ (4 * Real.sqrt (p.1 ^ 2 + p.2 ^ 2)) = none) :
    segment_through_center Math p τ = none := by
  simp only [segment_through_center, proj_fst]
  rw [h]

theorem compute_segment_none (p : Point ℝ) (s e : ℝ)
    (h : segment_through_center Math p (e - s) = none) :
    Trajectory.compute_new_point Math { type := "segment", start_point := p, start_time := s } e
      = Value.nan_point := by
  simp [Trajectory.compute_new_point, h]

end RealFacts

/-! ## Properties of the circular law -/

/-- C1: a `circle` trajectory built with start point `p` and start time `s`
returns exactly `p` from `compute_new_point(s)`: at an elapsed time equal to the
start time the circular law is at the start point. -/
theorem circle_at_start_time (p : Point ℝ) (s : ℝ) :
    Trajectory.compute_new_point Math { type := "circle", start_point := p, start_time := s } s
      = Value.point p := by
  rw [compute_circle, circle_equation_eq]
  simp only [sub_self, zero_mul, zero_div, Real.cos_zero, Real.sin_zero, mul_one, mul_zero]
  rw [rotation_back]

/-- C2: for every start point `p`, start time `s` and elapsed time `e`, a `circle`
trajectory returns a point whose squared distance from the origin is that of `p`. -/
theorem circle_preserves_radius (p : Point ℝ) (s e : ℝ) :
    ∃ q : Point ℝ,
      Trajectory.compute_new_point Math
          { type := "circle", start_point := p, start_time := s } e = Value.point q ∧
      q.1 ^ 2 + q.2 ^ 2 = p.1 ^ 2 + p.2 ^ 2 := by
  refine ⟨circle_equation Math p ((e - s) * Real.pi / 180), compute_circle p s e, ?_⟩
  rw [circle_equation_eq, rotation_norm_sq]
  have h0 : 0 ≤ p.1 ^ 2 + p.2 ^ 2 := by positivity
  have h := Real.cos_sq_add_sin_sq ((e - s) * Real.pi / 180)
  calc (Real.sqrt (p.1 ^ 2 + p.2 ^ 2) * Real.cos ((e - s) * Real.pi / 180)) ^ 2
        + (Real.sqrt (p.1 ^ 2 + p.2 ^ 2) * Real.sin ((e - s) * Real.pi / 180)) ^ 2
      = Real.sqrt (p.1 ^ 2 + p.2 ^ 2) ^ 2
          * (Real.cos ((e - s) * Real.pi / 180) ^ 2 + Real.sin ((e - s) * Real.pi / 180) ^ 2) := by
        ring
    _ = p.1 ^ 2 + p.2 ^ 2 := by rw [h, mul_one, Real.sq_sqrt h0]

/-! ## Properties of the segment law -/

/-- C3: for a start point `p` other than the origin, at distance `d` from it, and
a start time `s`, a `segment` trajectory is at `p` at elapsed time `s`, at the
origin at `s + d`, at the mirror point `-p` at `s + 2d`, at the origin at `s + 3d`
and at `p` again at `s + 4d`. -/
theorem segment_quarter_points (p : Point ℝ) (s : ℝ) (hp : p ≠ (0, 0)) :
    Trajectory.compute_new_point Math { type := "segment", start_point := p, start_time := s } s
      = Value.point p ∧
    Trajectory.compute_new_point Math { type := "segment", start_point := p, start_time := s }
        (s + Real.sqrt (p.1 ^ 2 + p.2 ^ 2)) = Value.point (0, 0) ∧
    Trajectory.compute_new_point Math { type := "segment", start_point := p, start_time := s }
        (s + 2 * Real.sqrt (p.1 ^ 2 + p.2 ^ 2)) = Value.point (-p.1, -p.2) ∧
    Trajectory.compute_new_point Math { type := "segment", start_point := p, start_time := s }
        (s + 3 * Real.sqrt (p.1 ^ 2 + p.2 ^ 2)) = Value.point (0, 0) ∧
    Trajectory.compute_new_point Math { type := "segment", start_point := p, start_time := s }
        (s + 4 * Real.sqrt (p.1 ^ 2 + p.2 ^ 2)) = Value.point p := by
  have hd := sqrt_pos_of_ne p hp
  refine ⟨?_, ?_, ?_, ?_, ?_⟩
  · rw [compute_segment_of_rem p s s 0
      (by rw [sub_self]; exact js_rem_of_nonneg_lt _ _ le_rfl (by linarith))]
    rw [if_pos (by linarith), sub_zero, rotation_back]
  · rw [compute_segment_of_rem p s _ (Real.sqrt (p.1 ^ 2 + p.2 ^ 2))
      (by rw [add_sub_cancel_left]; exact js_rem_of_nonneg_lt _ _ hd.le (by linarith))]
    rw [if_pos (by linarith), sub_self, rotation_zero]
  · rw [compute_segment_of_rem p s _ (2 * Real.sqrt (p.1 ^ 2 + p.2 ^ 2))
      (by rw [add_sub_cancel_left]; exact js_rem_of_nonneg_lt _ _ (by linarith) (by linarith))]
    rw [if_neg (lt_irrefl _),
      show -3 * Real.sqrt (p.1 ^ 2 + p.2 ^ 2) + 2 * Real.sqrt (p.1 ^ 2 + p.2 ^ 2)
        = (-1) * Real.sqrt (p.1 ^ 2 + p.2 ^ 2) by ring,
      rotation_back_scaled]
    simp
  · rw [compute_segment_of_rem p s _ (3 * Real.sqrt (p.1 ^ 2 + p.2 ^ 2))
      (by rw [add_sub_cancel_left]; exact js_rem_of_nonneg_lt _ _ (by linarith) (by linarith))]
    rw [if_neg (by linarith),
      show -3 * Real.sqrt (p.1 ^ 2 + p.2 ^ 2) + 3 * Real.sqrt (p.1 ^ 2 + p.2 ^ 2) = 0 by ring,
      rotation_zero]
  · rw [compute_segment_of_rem p s _ 0
      (by rw [add_sub_cancel_left]; exact js_rem_self _ (by linarith))]
    rw [if_pos (by linarith), sub_zero, rotation_back]

/-- C3 at the start point `(5, 0)` and start time `0`: the trajectory is at
`(5,0)`, `(0,0)`, `(-5,0)`, `(0,0)`, `(5,0)` at the elapsed times 0, 5, 10, 15, 20. -/
theorem segment_quarter_points_witness :
    ((5 : ℝ), (0 : ℝ)) ≠ (0, 0) ∧
    Trajectory.compute_new_point Math
        { type := "segment", start_point := (5, 0), start_time := 0 } 0 = Value.point (5, 0) ∧
    Trajectory.compute_new_point Math
        { type := "segment", start_point := (5, 0), start_time := 0 } 5 = Value.point (0, 0) ∧
    Trajectory.compute_new_point Math
        { type := "segment", start_point := (5, 0), start_time := 0 } 10 = Value.point (-5, 0) ∧
    Trajectory.compute_new_point Math
        { type := "segment", start_point := (5, 0), start_time := 0 } 15 = Value.point (0, 0) ∧
    Trajectory.compute_new_point Math
        { type := "segment", start_point := (5, 0), start_time := 0 } 20 = Value.point (5, 0) := by
  have hne : ((5 : ℝ), (0 : ℝ)) ≠ (0, 0) := by simp
  have h := segment_quarter_points (5, 0) 0 hne
  simp only [sqrt_five, zero_add, neg_zero] at h
  norm_num at h
  exact ⟨hne, h⟩

/-- C4, evaluated before the start time: with start point `(5, 0)` (so `d = 5`)
and start time `10`, `compute_new_point(5)` is `(10, 0)`, a point beyond the start
point, whereas one claimed period later `compute_new_point(5 + 4 * 5)` is `(0, 0)`. -/
theorem segment_before_start_time :
    Real.sqrt ((5 : ℝ) ^ 2 + 0 ^ 2) = 5 ∧
    Trajectory.compute_new_point Math
        { type := "segment", start_point := (5, 0), start_time := 10 } 5 = Value.point (10, 0) ∧
    Trajectory.compute_new_point Math
        { type := "segment", start_point := (5, 0), start_time := 10 } (5 + 4 * 5)
      = Value.point (0, 0) := by
  refine ⟨sqrt_five, ?_, ?_⟩
  · rw [compute_segment_of_rem (5, 0) 10 5 (-5)
      (by
        simp only [sqrt_five]
        rw [show (5 - 10 : ℝ) = -5 by norm_num]
        exact js_rem_of_neg_gt _ _ (by norm_num) (by norm_num))]
    simp only [sqrt_five]
    rw [if_pos (by norm_num), rotation_on_axis]
    norm_num
  · rw [compute_segment_of_rem (5, 0) 10 (5 + 4 * 5) 15
      (by
        simp only [sqrt_five]
        rw [show (5 + 4 * 5 - 10 : ℝ) = 15 by norm_num]
        exact js_rem_of_nonneg_lt _ _ (by norm_num) (by norm_num))]
    simp only [sqrt_five]
    rw [if_neg (by norm_num), rotation_on_axis]
    norm_num

/-! ## Properties of the transformations -/

/-- C5: for every point `p` and angle `a`, `point_rotation(p, a)` has the same
Euclidean norm as `p`: the squares of its two coordinates sum to `p.x^2 + p.y^2`. -/
theorem point_rotation_isometry (p : Point ℝ) (a : ℝ) :
    (point_rotation Math p a).1 ^ 2 + (point_rotation Math p a).2 ^ 2 = p.1 ^ 2 + p.2 ^ 2 :=
  rotation_norm_sq p a

/-- C6: for every point `p` and angles `a`, `b`, rotating by `a` and then by `b`
is rotating by `a + b`. -/
theorem point_rotation_comp (p : Point ℝ) (a b : ℝ) :
    point_rotation Math (point_rotation Math p a) b = point_rotation Math p (a + b) := by
  simp only [point_rotation, math_cos, math_sin, Real.cos_add, Real.sin_add]
  ext
  · simp only; ring
  · simp only; ring

/-- C7: for every point `p` and angle `a`, rotating by `a` and then by `-a`
gives `p` back. -/
theorem point_rotation_inverse (p : Point ℝ) (a : ℝ) :
    point_rotation Math (point_rotation Math p a) (-a) = p := by
  have h := Real.cos_sq_add_sin_sq a
  simp only [point_rotation, math_cos, math_sin, Real.cos_neg, Real.sin_neg]
  ext
  · simp only
    calc (p.1 * Real.cos a - p.2 * Real.sin a) * Real.cos a
          - (p.2 * Real.cos a + p.1 * Real.sin a) * -Real.sin a
        = p.1 * (Real.cos a ^ 2 + Real.sin a ^ 2) := by ring
      _ = p.1 := by rw [h, mul_one]
  · simp only
    calc (p.2 * Real.cos a + p.1 * Real.sin a) * Real.cos a
          + (p.1 * Real.cos a - p.2 * Real.sin a) * -Real.sin a
        = p.2 * (Real.cos a ^ 2 + Real.sin a ^ 2) := by ring
      _ = p.2 := by rw [h, mul_one]

/-- C8: for every point `p` and vector `v`, `point_translation(p, v)` is
`(p.x + v.x, p.y + v.y)`, and translating the result by the negated vector gives
`p` back. -/
theorem point_translation_spec (p v : Point ℝ) :
    point_translation p v = (p.1 + v.1, p.2 + v.2) ∧
    point_translation (point_translation p v) (-v.1, -v.2) = p := by
  refine ⟨rfl, ?_⟩
  simp only [point_translation]
  ext
  · simp
  · simp

/-! ## Properties of the square -/

/-- C9: for every side, angle and centre, the corner list computed by
`Square.display` has exactly 4 points, the `i`-th being the `i`-th corner of the
literal `(-side/2,-side/2), (-side/2,side/2), (side/2,side/2), (side/2,-side/2)`
rotated by the angle and then translated by the centre; with side 2, angle 0 and
centre `(0,0)` the list is `(-1,-1), (-1,1), (1,1), (1,-1)`. -/
theorem square_corners (side angle : ℝ) (center : Point ℝ) (size_max : ℝ) :
    (Square.corners Math
        { side := side, angle := angle, center := center, size_max := size_max }).length = 4 ∧
    Square.corners Math { side := side, angle := angle, center := center, size_max := size_max } =
      [point_translation (point_rotation Math ((-side) / 2, (-side) / 2) angle) center,
       point_translation (point_rotation Math ((-side) / 2, side / 2) angle) center,
       point_translation (point_rotation Math (side / 2, side / 2) angle) center,
       point_translation (point_rotation Math (side / 2, (-side) / 2) angle) center] ∧
    Square.corners Math { side := 2, angle := 0, center := (0, 0), size_max := size_max } =
      [(-1, -1), (-1, 1), (1, 1), (1, -1)] := by
  refine ⟨?_, ?_, ?_⟩
  · rw [corners_eq]
    rfl
  · rw [corners_eq]
  · rw [corners_eq]
    simp only [point_translation, point_rotation, math_cos, math_sin, Real.cos_zero,
      Real.sin_zero]
    norm_num

/-! ## Construction of trajectories -/

/-- C10, at a concrete input: constructing a `segment` trajectory with the start
point `(0, 0)` and start time `0` does not fail with `DegenerateTrajectory`; it
yields the trajectory whose start point is the origin. -/
theorem constructor_origin_not_rejected :
    Trajectory.constructor "segment" ((0 : ℝ), (0 : ℝ)) 0
      ≠ Except.error ConstructionError.DegenerateTrajectory ∧
    Trajectory.constructor "segment" ((0 : ℝ), (0 : ℝ)) 0
      = Except.ok { type := "segment", start_point := (0, 0), start_time := 0 } := by
  refine ⟨?_, rfl⟩
  intro h
  cases h

/-- C10, as amended: for every type and start time, constructing a trajectory
with the start point `(0, 0)` succeeds and stores the three arguments unchanged;
the constructor makes no check. -/
theorem constructor_accepts_origin (type : String) (start_time : ℝ) :
    Trajectory.constructor type ((0 : ℝ), (0 : ℝ)) start_time
      = Except.ok { type := type, start_point := (0, 0), start_time := start_time } :=
  rfl

/-! ## The circular law as a rotation -/

/-- C12: for every start point `p`, start time `s` and elapsed time `e`, a `circle`
trajectory returns `p` rotated about the origin by `(e - s)` degrees, that is
`point_rotation(p, (e - s) * pi / 180)`; and `circle_equation(p, t)` is
`point_rotation(p, t)` for every `t`. -/
theorem circle_is_rotation (p : Point ℝ) (s e : ℝ) :
    Trajectory.compute_new_point Math { type := "circle", start_point := p, start_time := s } e
      = Value.point (point_rotation Math p ((e - s) * Real.pi / 180)) ∧
    ∀ t : ℝ, circle_equation Math p t = point_rotation Math p t := by
  refine ⟨?_, fun t => circle_equation_rotation p t⟩
  rw [compute_circle, circle_equation_rotation]

/-- C19: the circular law has period 360 in elapsed time: for every start point
`p`, start time `s` and elapsed time `e` of either sign,
`compute_new_point(e + 360) = compute_new_point(e)`. -/
theorem circle_period (p : Point ℝ) (s e : ℝ) :
    Trajectory.compute_new_point Math
        { type := "circle", start_point := p, start_time := s } (e + 360)
      = Trajectory.compute_new_point Math
        { type := "circle", start_point := p, start_time := s } e := by
  rw [compute_circle, compute_circle, circle_equation_rotation, circle_equation_rotation]
  have hangle : (e + 360 - s) * Real.pi / 180 = (e - s) * Real.pi / 180 + 2 * Real.pi := by
    ring
  simp only [point_rotation, math_cos, math_sin, hangle, Real.cos_add_two_pi,
    Real.sin_add_two_pi]

/-! ## The rotated frame -/

/-- C16: for every start point `p` other than the origin, rotating `p` by
`-atan2(p.y, p.x)` puts it on the positive X-axis, at `(|p|, 0)`; the abscissa
`d` (the `radius`) that both motion laws read from it is strictly positive. -/
theorem projection_on_positive_axis (p : Point ℝ) (hp : p ≠ (0, 0)) :
    point_rotation Math p (-(Math.atan2 p.2 p.1)) = (Real.sqrt (p.1 ^ 2 + p.2 ^ 2), 0) ∧
    0 < (point_rotation Math p (-(Math.atan2 p.2 p.1))).1 := by
  refine ⟨?_, ?_⟩
  · ext
    · exact proj_fst p
    · exact proj_snd p
  · rw [proj_fst]
    exact sqrt_pos_of_ne p hp

/-- C16 at the start point `(3, 4)`: the rotated point is `(5, 0)`. -/
theorem projection_on_positive_axis_witness :
    ((3 : ℝ), (4 : ℝ)) ≠ (0, 0) ∧
    point_rotation Math ((3 : ℝ), (4 : ℝ)) (-(Math.atan2 4 3)) = (5, 0) ∧
    0 < (point_rotation Math ((3 : ℝ), (4 : ℝ)) (-(Math.atan2 4 3))).1 := by
  have hne : ((3 : ℝ), (4 : ℝ)) ≠ (0, 0) := by simp
  have h := projection_on_positive_axis (3, 4) hne
  simp only [sqrt_three_four] at h
  exact ⟨hne, h⟩

/-! ## The outline of the square -/

/-- C17: `Square.display` issues exactly four `line` calls, in the order
corner0-corner1, corner1-corner2, corner2-corner3, corner3-corner0, where
corner `i` is the `i`-th corner of the literal `(-side/2,-side/2)`,
`(-side/2,side/2)`, `(side/2,side/2)`, `(side/2,-side/2)` rotated by the angle
and then translated by the centre; each line starts where the previous one ended
and the last line ends where the first one starts.  With side 2, angle `π/2` and
centre `(3, 4)` the calls are `line(4,3,2,3)`, `line(2,3,2,5)`, `line(2,5,4,5)`,
`line(4,5,4,3)`. -/
theorem display_closed_outline (side angle : ℝ) (center : Point ℝ) (size_max : ℝ) :
    (∃ c0 c1 c2 c3 : Point ℝ,
      c0 = point_translation (point_rotation Math ((-side) / 2, (-side) / 2) angle) center ∧
      c1 = point_translation (point_rotation Math ((-side) / 2, side / 2) angle) center ∧
      c2 = point_translation (point_rotation Math (side / 2, side / 2) angle) center ∧
      c3 = point_translation (point_rotation Math (side / 2, (-side) / 2) angle) center ∧
      Square.display Math
          { side := side, angle := angle, center := center, size_max := size_max } =
        [(c0.1, c0.2, c1.1, c1.2), (c1.1, c1.2, c2.1, c2.2),
         (c2.1, c2.2, c3.1, c3.2), (c3.1, c3.2, c0.1, c0.2)]) ∧
    (Square.display Math
        { side := side, angle := angle, center := center, size_max := size_max }).length = 4 ∧
    closed_outline (Square.display Math
        { side := side, angle := angle, center := center, size_max := size_max }) ∧
    Square.display Math
        { side := 2, angle := Real.pi / 2, center := (3, 4), size_max := size_max } =
      [(4, 3, 2, 3), (2, 3, 2, 5), (2, 5, 4, 5), (4, 5, 4, 3)] := by
  have hd := display_eq
    { side := side, angle := angle, center := center, size_max := size_max } _ _ _ _
    (corners_eq _)
  refine ⟨⟨_, _, _, _, rfl, rfl, rfl, rfl, hd⟩, ?_, ?_, ?_⟩
  · rw [hd]
    rfl
  · rw [hd]
    refine ⟨⟨rfl, rfl, rfl, trivial⟩, ?_⟩
    intro a b ha hb
    simp only [List.head?_cons, Option.some.injEq] at ha
    simp only [List.getLast?_cons_cons, List.getLast?_singleton, Option.some.injEq] at hb
    rw [← ha, ← hb]
    rfl
  · rw [display_eq _ _ _ _ _ (corners_eq _)]
    simp only [point_translation, point_rotation, math_cos, math_sin, Real.cos_pi_div_two,
      Real.sin_pi_div_two]
    norm_num

/-- C18: for every side, angle and centre the four corners computed by
`Square.display` form a square of the given side: the edges 0-1, 1-2, 2-3 and
3-0 have squared length `side^2`, and each corner is at squared distance
`side^2 / 2` from the centre. -/
theorem corners_form_square (side angle : ℝ) (center : Point ℝ) (size_max : ℝ) :
    ∃ c0 c1 c2 c3 : Point ℝ,
      Square.corners Math
          { side := side, angle := angle, center := center, size_max := size_max }
        = [c0, c1, c2, c3] ∧
      (c0.1 - c1.1) ^ 2 + (c0.2 - c1.2) ^ 2 = side ^ 2 ∧
      (c1.1 - c2.1) ^ 2 + (c1.2 - c2.2) ^ 2 = side ^ 2 ∧
      (c2.1 - c3.1) ^ 2 + (c2.2 - c3.2) ^ 2 = side ^ 2 ∧
      (c3.1 - c0.1) ^ 2 + (c3.2 - c0.2) ^ 2 = side ^ 2 ∧
      (c0.1 - center.1) ^ 2 + (c0.2 - center.2) ^ 2 = side ^ 2 / 2 ∧
      (c1.1 - center.1) ^ 2 + (c1.2 - center.2) ^ 2 = side ^ 2 / 2 ∧
      (c2.1 - center.1) ^ 2 + (c2.2 - center.2) ^ 2 = side ^ 2 / 2 ∧
      (c3.1 - center.1) ^ 2 + (c3.2 - center.2) ^ 2 = side ^ 2 / 2 := by
  have h := Real.cos_sq_add_sin_sq angle
  refine ⟨_, _, _, _, corners_eq _, ?_, ?_, ?_, ?_, ?_, ?_, ?_, ?_⟩ <;>
    simp only [point_translation, point_rotation, math_cos, math_sin]
  · linear_combination side ^ 2 * h
  · linear_combination side ^ 2 * h
  · linear_combination side ^ 2 * h
  · linear_combination side ^ 2 * h
  · linear_combination side ^ 2 / 2 * h
  · linear_combination side ^ 2 / 2 * h
  · linear_combination side ^ 2 / 2 * h
  · linear_combination side ^ 2 / 2 * h

/-! ## Dispatch on the type of the trajectory -/

/-- C11, at a concrete input: a `segment` trajectory whose start point is the
origin, asked for its point at elapsed time `3`, yields the array `[NaN, NaN]`
(the divisor `4 * d` of `%` is `0`), which is not a point `[X, Y]` of two reals. -/
theorem segment_at_origin_not_a_point :
    Trajectory.compute_new_point Math
        { type := "segment", start_point := ((0 : ℝ), (0 : ℝ)), start_time := 0 } 3
      = Value.nan_point ∧
    ¬ ∃ q : Point ℝ,
      Trajectory.compute_new_point Math
        { type := "segment", start_point := ((0 : ℝ), (0 : ℝ)), start_time := 0 } 3
      = Value.point q := by
  have h : Trajectory.compute_new_point Math
      { type := "segment", start_point := ((0 : ℝ), (0 : ℝ)), start_time := 0 } 3
        = Value.nan_point := by
    apply compute_segment_none
    apply segment_of_rem_none
    have hz : (4 : ℝ) * Real.sqrt ((0 : ℝ) ^ 2 + (0 : ℝ) ^ 2) = 0 := by simp
    show js_rem ((3 : ℝ) - 0) (4 * Real.sqrt ((0 : ℝ) ^ 2 + (0 : ℝ) ^ 2)) = none
    rw [hz, js_rem_zero_divisor]
  refine ⟨h, ?_⟩
  rintro ⟨q, hq⟩
  rw [h] at hq
  cases hq

/-- C11, as amended: `compute_new_point` evaluates to something other than
`undefined` if and only if the type is `circle` or `segment`; for every other
type tag it is `undefined`, for `circle` it is always a point, and for `segment`
it is a point whenever the start point is not the origin. -/
theorem compute_new_point_dispatch (tr : Trajectory ℝ) (e : ℝ) :
    (Trajectory.compute_new_point Math tr e ≠ Value.undefined
      ↔ tr.type = "circle" ∨ tr.type = "segment") ∧
    (tr.type ≠ "circle" → tr.type ≠ "segment" →
      Trajectory.compute_new_point Math tr e = Value.undefined) ∧
    (tr.type = "circle" → ∃ q : Point ℝ, Trajectory.compute_new_point Math tr e = Value.point q) ∧
    (tr.type = "segment" → tr.start_point ≠ (0, 0) →
      ∃ q : Point ℝ, Trajectory.compute_new_point Math tr e = Value.point q) := by
  refine ⟨?_, ?_, ?_, ?_⟩
  · unfold Trajectory.compute_new_point
    by_cases hc : tr.type = "circle"
    · simp [hc]
    · by_cases hs : tr.type = "segment"
      · rw [if_neg hc, if_pos hs]
        cases hseg : segment_through_center Math tr.start_point (e - tr.start_time) <;>
          simp [hs]
      · simp [hc, hs]
  · intro hc hs
    simp [Trajectory.compute_new_point, hc, hs]
  · intro hc
    refine ⟨circle_equation Math tr.start_point ((e - tr.start_time) * Math.PI / 180), ?_⟩
    unfold Trajectory.compute_new_point
    rw [if_pos hc]
  · intro hs hp
    have hc : tr.type ≠ "circle" := by
      rw [hs]
      decide
    have hd := sqrt_pos_of_ne tr.start_point hp
    have hne : 4 * Real.sqrt (tr.start_point.1 ^ 2 + tr.start_point.2 ^ 2) ≠ 0 := by
      have : 0 < 4 * Real.sqrt (tr.start_point.1 ^ 2 + tr.start_point.2 ^ 2) := by linarith
      exact this.ne.symm
    have hseg := segment_of_rem tr.start_point (e - tr.start_time) _
      (js_rem_of_ne (e - tr.start_time) _ hne)
    obtain ⟨q, hq⟩ : ∃ q : Point ℝ,
        segment_through_center Math tr.start_point (e - tr.start_time) = some q := ⟨_, hseg⟩
    refine ⟨q, ?_⟩
    unfold Trajectory.compute_new_point
    rw [if_neg hc, if_pos hs, hq]

/-- C11 as amended, at concrete inputs: a `segment` trajectory started at `(3, 4)`
yields a point, and a trajectory of the unknown type `square` yields `undefined`. -/
theorem compute_new_point_dispatch_witness :
    (∃ q : Point ℝ,
      Trajectory.compute_new_point Math
        { type := "segment", start_point := ((3 : ℝ), (4 : ℝ)), start_time := 0 } 7
      = Value.point q) ∧
    Trajectory.compute_new_point Math
        { type := "square", start_point := ((3 : ℝ), (4 : ℝ)), start_time := 0 } 7
      = Value.undefined :=
  ⟨(compute_new_point_dispatch
      { type := "segment", start_point := ((3 : ℝ), (4 : ℝ)), start_time := 0 } 7).2.2.2
      rfl (by simp),
   (compute_new_point_dispatch
      { type := "square", start_point := ((3 : ℝ), (4 : ℝ)), start_time := 0 } 7).2.1
      (by decide) (by decide)⟩

/-! ## The segment law from the start time on -/

/-- C13: for a start point `p` other than the origin, `d = |p|`, and a
non-negative `τ = elapsed_time - start_time`, let `r = τ mod 4d` (the remainder in
`[0, 4d)`) and `x = d - r` when `r < 2d`, `x = -3d + r` otherwise.  A `segment`
trajectory returns the point `(x / d) * p`; it lies on the line through the
origin and `p`, and in the rotated frame it is `(x, 0)`. -/
theorem segment_law (p : Point ℝ) (s e : ℝ) (hp : p ≠ (0, 0)) (hτ : 0 ≤ e - s)
    (d r x : ℝ) (hd : d = Real.sqrt (p.1 ^ 2 + p.2 ^ 2))
    (hr : r = (e - s) - 4 * d * ((Int.floor ((e - s) / (4 * d)) : ℤ) : ℝ))
    (hx : x = if r < 2 * d then d - r else -3 * d + r) :
    (0 ≤ r ∧ r < 4 * d) ∧
    Trajectory.compute_new_point Math { type := "segment", start_point := p, start_time := s } e
      = Value.point (x / d * p.1, x / d * p.2) ∧
    point_rotation Math (x / d * p.1, x / d * p.2) (-(Math.atan2 p.2 p.1)) = (x, 0) := by
  have hpos := sqrt_pos_of_ne p hp
  rw [← hd] at hpos
  have h4 : 0 < 4 * d := by linarith
  have hb := floor_rem_bounds (e - s) (4 * d) h4
  rw [← hr] at hb
  refine ⟨hb, ?_, ?_⟩
  · have hrem : js_rem (e - s) (4 * Real.sqrt (p.1 ^ 2 + p.2 ^ 2)) = some r := by
      rw [← hd, hr]
      exact js_rem_of_nonneg (e - s) (4 * d) hτ h4
    rw [compute_segment_of_rem p s e r hrem, ← hd, ← hx, rotation_back_of_abscissa p hp, ← hd]
  · rw [rotation_smul, proj_fst, proj_snd, ← hd, div_mul_cancel₀ x hpos.ne.symm, mul_zero]

/-- C13 at the start point `(3, 4)`, start time `2` and elapsed time `9`: `d = 5`,
`r = 7`, `x = -2`, and the point returned is `(-2/5) * (3, 4)`. -/
theorem segment_law_witness :
    ((3 : ℝ), (4 : ℝ)) ≠ (0, 0) ∧ (0 : ℝ) ≤ 9 - 2 ∧
    ((0 : ℝ) ≤ 7 ∧ (7 : ℝ) < 4 * 5) ∧
    Trajectory.compute_new_point Math
        { type := "segment", start_point := ((3 : ℝ), (4 : ℝ)), start_time := 2 } 9
      = Value.point (-2 / 5 * 3, -2 / 5 * 4) ∧
    point_rotation Math ((-2 / 5 * 3 : ℝ), (-2 / 5 * 4 : ℝ)) (-(Math.atan2 4 3)) = (-2, 0) := by
  have hne : ((3 : ℝ), (4 : ℝ)) ≠ (0, 0) := by simp
  have hτ : (0 : ℝ) ≤ 9 - 2 := by norm_num
  have hfloor : Int.floor (((9 : ℝ) - 2) / (4 * 5)) = 0 := by
    rw [Int.floor_eq_iff]
    norm_num
  have h := segment_law (3, 4) 2 9 hne hτ 5 7 (-2) sqrt_three_four.symm
    (by rw [hfloor]; norm_num) (by norm_num)
  exact ⟨hne, hτ, h⟩

/-- C14, evaluated before the start time: with start point `(3, 4)`, at distance
`5` from the origin, and start time `10`, `compute_new_point(5)` is `(6, 8)`, at
distance `10` from the origin: the point is beyond the end `p` of the segment. -/
theorem segment_beyond_start_point :
    Trajectory.compute_new_point Math
        { type := "segment", start_point := ((3 : ℝ), (4 : ℝ)), start_time := 10 } 5
      = Value.point (6, 8) ∧
    Real.sqrt ((3 : ℝ) ^ 2 + 4 ^ 2) = 5 ∧
    Real.sqrt ((6 : ℝ) ^ 2 + 8 ^ 2) = 10 := by
  have hne : ((3 : ℝ), (4 : ℝ)) ≠ (0, 0) := by simp
  refine ⟨?_, sqrt_three_four, ?_⟩
  · have hrem : js_rem ((5 : ℝ) - 10)
        (4 * Real.sqrt (((3 : ℝ), (4 : ℝ)).1 ^ 2 + ((3 : ℝ), (4 : ℝ)).2 ^ 2)) = some (-5) := by
      show js_rem ((5 : ℝ) - 10) (4 * Real.sqrt ((3 : ℝ) ^ 2 + 4 ^ 2)) = some (-5)
      rw [sqrt_three_four, show ((5 : ℝ) - 10) = -5 by norm_num]
      exact js_rem_of_neg_gt _ _ (by norm_num) (by norm_num)
    rw [compute_segment_of_rem (3, 4) 10 5 (-5) hrem, rotation_back_of_abscissa (3, 4) hne]
    simp only [sqrt_three_four]
    rw [if_pos (by norm_num)]
    norm_num
  · rw [show ((6 : ℝ) ^ 2 + 8 ^ 2) = 10 ^ 2 by norm_num]
    exact Real.sqrt_sq (by norm_num)

/-- C15: the segment law moves at unit speed.  For a start point `p` other than
the origin, `d = |p|`, and `τ1 ≤ τ2` both in `[0, 2d]` or both in `[2d, 4d)`, the
Euclidean distance between `segment_through_center(p, τ1)` and
`segment_through_center(p, τ2)` is `τ2 - τ1`. -/
theorem segment_unit_speed (p : Point ℝ) (hp : p ≠ (0, 0)) (τ1 τ2 : ℝ) (h12 : τ1 ≤ τ2)
    (hrange : (0 ≤ τ1 ∧ τ2 ≤ 2 * Real.sqrt (p.1 ^ 2 + p.2 ^ 2)) ∨
      (2 * Real.sqrt (p.1 ^ 2 + p.2 ^ 2) ≤ τ1 ∧ τ2 < 4 * Real.sqrt (p.1 ^ 2 + p.2 ^ 2))) :
    ∃ q1 q2 : Point ℝ,
      segment_through_center Math p τ1 = some q1 ∧
      segment_through_center Math p τ2 = some q2 ∧
      Real.sqrt ((q1.1 - q2.1) ^ 2 + (q1.2 - q2.2) ^ 2) = τ2 - τ1 := by
  have hd := sqrt_pos_of_ne p hp
  rcases hrange with ⟨h0, h2⟩ | ⟨h2, h4⟩
  · refine ⟨_, _, segment_of_nonneg_lt p τ1 h0 (by linarith),
      segment_of_nonneg_lt p τ2 (by linarith) (by linarith), ?_⟩
    rw [dist_axis_points, abscissa_first_leg _ _ (by linarith), abscissa_first_leg _ _ h2,
      abs_of_nonneg (by linarith)]
    ring
  · refine ⟨_, _, segment_of_nonneg_lt p τ1 (by linarith) (by linarith),
      segment_of_nonneg_lt p τ2 (by linarith) h4, ?_⟩
    rw [dist_axis_points, if_neg (by linarith), if_neg (by linarith),
      abs_of_nonpos (by linarith)]
    ring

/-- C15 at the start point `(3, 4)` (`d = 5`) and the times `1` and `4` of the way
out: the two points are `3` apart. -/
theorem segment_unit_speed_witness :
    ((3 : ℝ), (4 : ℝ)) ≠ (0, 0) ∧ (1 : ℝ) ≤ 4 ∧
    ∃ q1 q2 : Point ℝ,
      segment_through_center Math ((3 : ℝ), (4 : ℝ)) 1 = some q1 ∧
      segment_through_center Math ((3 : ℝ), (4 : ℝ)) 4 = some q2 ∧
      Real.sqrt ((q1.1 - q2.1) ^ 2 + (q1.2 - q2.2) ^ 2) = 4 - 1 := by
  have hne : ((3 : ℝ), (4 : ℝ)) ≠ (0, 0) := by simp
  have h14 : (1 : ℝ) ≤ 4 := by norm_num
  refine ⟨hne, h14, segment_unit_speed (3, 4) hne 1 4 h14 (Or.inl ⟨by norm_num, ?_⟩)⟩
  show (4 : ℝ) ≤ 2 * Real.sqrt ((3 : ℝ) ^ 2 + 4 ^ 2)
  rw [sqrt_three_four]
  norm_num

end Corridor
